import Mathlib

/-!
Verification of the amppackager signer (`packager/signer/signer.go`).

The Go source is shallowly embedded: pure functions become Lean functions over
`List Char` / `String`, the HTTP header multimap becomes an association list
with unique canonical keys, and the sign-or-proxy decision tree of
`ServeHTTP` / `consumeAndSign` / `serveSignedExchange` becomes a total
function from an environment of collaborator results (upstream fetch result,
transformer output, certificate handling, clock) to the response written.

Modelling conventions:
- Header names are stored in Go's canonical form (`http.CanonicalHeaderKey`);
  every name appearing in the source is already canonical, so canonicalization
  is the identity at all modelled call sites.
- Go map iteration order is randomized; the iterations in the source
  (`statefulResponseHeaders`, `statusNotModifiedHeaders`) perform commuting
  deletions/sets on distinct keys, and are modelled as folds over the map
  literal's key list.
- `strings.ToLower` is modelled on the ASCII range (the only range exercised
  by the fixed directive names being compared).
-/

namespace AmpPkg

/-! ## Go string primitives (strings.Split, strings.TrimSpace, strings.Fields,
strings.ToLower), modelled over `List Char`. -/

/-- `unicode.IsSpace`: Go's white space class, which includes U+000B vertical
tab (the source comments on this divergence from the CSP spec). -/
def goIsSpace (c : Char) : Bool :=
  c = '\t' || c = '\n' || c.toNat = 11 || c.toNat = 12 || c = '\r' || c = ' ' ||
  c.toNat = 0x85 || c.toNat = 0xA0 || c.toNat = 0x1680 ||
  (0x2000 ≤ c.toNat && c.toNat ≤ 0x200A) ||
  c.toNat = 0x2028 || c.toNat = 0x2029 || c.toNat = 0x202F ||
  c.toNat = 0x205F || c.toNat = 0x3000

/-- `strings.ToLower`, on the ASCII range (identity elsewhere). -/
def goToLower (c : Char) : Char :=
  if 'A' ≤ c ∧ c ≤ 'Z' then Char.ofNat (c.toNat + 32) else c

/-- `strings.Split(s, ";")`: split on every semicolon, keeping empty pieces.
`splitSemi [] = [[]]`, matching Go's `Split("", ";") = [""]`. -/
def splitSemi : List Char → List (List Char)
  | [] => [[]]
  | c :: r =>
    if c = ';' then [] :: splitSemi r
    else
      match splitSemi r with
      | [] => [[c]]
      | x :: xs => (c :: x) :: xs

/-- Left trim of `strings.TrimSpace`. -/
def trimLeftSpace (l : List Char) : List Char := l.dropWhile goIsSpace

/-- Right trim of `strings.TrimSpace`. -/
def trimRightSpace (l : List Char) : List Char :=
  (l.reverse.dropWhile goIsSpace).reverse

/-- `strings.TrimSpace`. -/
def trimSpace (l : List Char) : List Char := trimRightSpace (trimLeftSpace l)

/-- Accumulator-style worker for `strings.Fields`. -/
def fieldsAux : List Char → List Char → List (List Char)
  | [], acc => if acc.isEmpty then [] else [acc.reverse]
  | c :: r, acc =>
    if goIsSpace c then
      if acc.isEmpty then fieldsAux r [] else acc.reverse :: fieldsAux r []
    else fieldsAux r (c :: acc)

/-- `strings.Fields`: the maximal runs of non-space characters. -/
def fields (l : List Char) : List (List Char) := fieldsAux l []

/-! ## The CSP rewriter (`MutateFetchedContentSecurityPolicy`) -/

/-- The CSP directives preserved verbatim by the rewriter. -/
def cspPreservedNames : List (List Char) :=
  ["base-uri".data, "block-all-mixed-content".data, "font-src".data,
   "form-action".data, "manifest-src".data, "referrer".data,
   "upgrade-insecure-requests".data]

/-- The constant policy appended by the rewriter (verbatim from the source). -/
def cspSuffix : String :=
  "default-src * blob: data:;" ++
  "report-uri https://csp.withgoogle.com/csp/amp;" ++
  "script-src blob: https://cdn.ampproject.org/rtv/ " ++
  "https://cdn.ampproject.org/v0.js " ++
  "https://cdn.ampproject.org/v0/ " ++
  "https://cdn.ampproject.org/lts/ " ++
  "https://cdn.ampproject.org/viewer/;" ++
  "style-src 'unsafe-inline' https://cdn.materialdesignicons.com " ++
  "https://cloud.typography.com https://fast.fonts.net " ++
  "https://fonts.googleapis.com https://maxcdn.bootstrapcdn.com " ++
  "https://p.typekit.net https://pro.fontawesome.com " ++
  "https://use.fontawesome.com https://use.typekit.net;" ++
  "object-src 'none'"

/-- The test applied to each directive token: trim it, split it into fields,
and keep the trimmed form only when its lowercased name is one of the
preserved directives (skipping tokens with no fields). -/
def cspKeep (directiveToken : List Char) : Option (List Char) :=
  let trimmed := trimSpace directiveToken
  match fields trimmed with
  | [] => none
  | name :: _ =>
    if (name.map goToLower) ∈ cspPreservedNames then some trimmed else none

/-- One iteration of the rewriter's directive loop: append the kept trimmed
token re-terminated with `;`, or skip it. -/
def cspStep (directiveToken : List Char) (acc : List Char) : List Char :=
  match cspKeep directiveToken with
  | none => acc
  | some trimmed => trimmed ++ ';' :: acc

/-- `MutateFetchedContentSecurityPolicy`: keep the preserved directives (each
re-terminated with `;`), drop everything else, and append the fixed policy. -/
def mutateFetchedCSP (fetched : List Char) : List Char :=
  (splitSemi fetched).foldr cspStep cspSuffix.data

/-- String-level wrapper used by the packaging pipeline. -/
def mutateFetchedCSPString (s : String) : String := ⟨mutateFetchedCSP s.data⟩

/-- The trimmed preserved tokens of an input policy, in order. -/
def cspPreservedTokens (fetched : List Char) : List (List Char) :=
  (splitSemi fetched).filterMap cspKeep

/-- The five directive tokens of the fixed appended policy. -/
def cspFixedTokens : List (List Char) := splitSemi cspSuffix.data

/-- The names of the five overridden directives. -/
def cspFixedNames : List (List Char) :=
  ["default-src".data, "report-uri".data, "script-src".data,
   "style-src".data, "object-src".data]

/-- The lowercased name of an output directive token. -/
def tokenName (t : List Char) : List Char := ((fields t).headD []).map goToLower

/-! ## HTTP header multimap (`net/http.Header`)

An association list with unique keys; names are stored in canonical form. -/

abbrev Header := List (String × List String)

/-- Map lookup `h[name]`. -/
def hGet (h : Header) (name : String) : Option (List String) :=
  (h.find? (fun p => p.1 = name)).map (fun p => p.2)

/-- `Header.Get`: the first value of the named header, or the empty string. -/
def hGetFirst (h : Header) (name : String) : String :=
  match hGet h name with
  | some (v :: _) => v
  | _ => ""

/-- `Header.Del`. -/
def hDel (h : Header) (name : String) : Header :=
  h.filter (fun p => p.1 ≠ name)

/-- `Header.Set`: replace every value of the name with the single value. -/
def hSet (h : Header) (name value : String) : Header :=
  hDel h name ++ [(name, [value])]

/-- Direct map assignment `h[name] = values`, as in `proxyImpl`. -/
def hSetAll (h : Header) (name : String) (values : List String) : Header :=
  hDel h name ++ [(name, values)]

/-- `Header.Add`: append a value to the name's list. -/
def hAdd (h : Header) (name value : String) : Header :=
  match hGet h name with
  | none => h ++ [(name, [value])]
  | some vs => hSetAll h name (vs ++ [value])

/-- `GetJoined`: every value of the name joined on comma, except that
`Set-Cookie` returns only the first value. -/
def getJoined (h : Header) (name : String) : String :=
  match hGet h name with
  | some values =>
    if name = "Set-Cookie" then
      match values with
      | v :: _ => v
      | [] => ""
    else String.intercalate ", " values
  | none => ""

/-- `statefulResponseHeaders`: the keys of the source's map literal. -/
def statefulResponseHeaders : List String :=
  ["Authentication-Control", "Authentication-Info", "Clear-Site-Data",
   "Optional-WWW-Authenticate", "Proxy-Authenticate", "Proxy-Authentication-Info",
   "Public-Key-Pins", "Sec-WebSocket-Accept", "Set-Cookie", "Set-Cookie2",
   "SetProfile", "Strict-Transport-Security", "WWW-Authenticate"]

/-- `statusNotModifiedHeaders`: the keys of the source's map literal. -/
def statusNotModifiedHeaders : List String :=
  ["Cache-Control", "Content-Location", "Date", "ETag", "Expires", "Vary"]

/-- `maxSignableBodyLength = 4 * 1 << 20`. -/
def maxSignableBodyLength : Nat := (4 * 1) <<< 20

/-! ## `formatLinkHeader` -/

/-- An attribute of an `rpb.Metadata_Preload`. -/
structure PreloadAttr where
  Key : String
  Val : String
deriving DecidableEq, Repr

/-- `rpb.Metadata_Preload`. -/
structure Preload where
  Url : String
  As : String
  Attributes : List PreloadAttr
deriving DecidableEq, Repr

/-- Serialization of one preload's attributes, `;key="quoted-val"` each;
`none` when some value cannot be encoded as an HTTP quoted-string.
`quote` models `util.QuotedString`. -/
def encodeAttrs (quote : String → Option String) : List PreloadAttr → Option String
  | [] => some ""
  | attr :: rest =>
    match quote attr.Val with
    | none => none
    | some quotedVal =>
      (encodeAttrs quote rest).map (fun s => ";" ++ attr.Key ++ "=" ++ quotedVal ++ s)

/-- The loop of `formatLinkHeader`, producing the serialized values.
`parseURL` models `url.Parse` followed by the `RawQuery` re-escaping and
`u.String()` (`none` = invalid URL, which fails the whole call, as does a
missing `as`); a record whose attributes cannot be quoted is skipped. -/
def formatLinkValues (parseURL : String → Option String)
    (quote : String → Option String) : List Preload → Except Unit (List String)
  | [] => .ok []
  | preload :: rest =>
    match parseURL preload.Url with
    | none => .error ()
    | some u =>
      if preload.As = "" then .error ()
      else
        match encodeAttrs quote preload.Attributes with
        | none => formatLinkValues parseURL quote rest
        | some attrs =>
          (formatLinkValues parseURL quote rest).map
            (fun vs => ("<" ++ u ++ ">;rel=preload;as=" ++ preload.As ++ attrs) :: vs)

/-- `formatLinkHeader`: the serialized values joined with `,`. -/
def formatLinkHeader (parseURL : String → Option String)
    (quote : String → Option String) (preloads : List Preload) : Except Unit String :=
  (formatLinkValues parseURL quote preloads).map (String.intercalate ",")

/-- Serialization of a single preload record, when its attributes encode. -/
def serializePreload (parseURL : String → Option String)
    (quote : String → Option String) (p : Preload) : Option String :=
  match parseURL p.Url, encodeAttrs quote p.Attributes with
  | some u, some attrs => some ("<" ++ u ++ ">;rel=preload;as=" ++ p.As ++ attrs)
  | _, _ => none

/-- A concrete URL parser for witnesses: one distinguished invalid URL. -/
def linkParseURL0 : String → Option String :=
  fun s => if s = ":bad" then none else some s

/-- A concrete quoted-string encoder for witnesses: a value containing a
double quote cannot be encoded. -/
def linkQuote0 : String → Option String :=
  fun s => if s = "a\"b" then none else some ("\"" ++ s ++ "\"")

/-- Concrete preloads for witnesses; the middle record's attribute cannot be
encoded as a quoted-string. -/
def linkPreloads0 : List Preload :=
  [⟨"https://pub.example/a.js", "script", [⟨"media", "print"⟩]⟩,
   ⟨"https://pub.example/b.css", "style", [⟨"media", "a\"b"⟩]⟩,
   ⟨"https://pub.example/c.css", "style", []⟩]

/-! ## The request pipeline (`ServeHTTP` / `consumeAndSign` /
`serveSignedExchange` / `proxyImpl`) -/

/-- An upstream `http.Response` after hop-by-hop stripping: status, header
map, and the byte sequence its body stream delivers. The same shape models
`consumedFetchResp`, where the body is the consumed in-memory bytes. -/
structure FetchResp where
  statusCode : Nat
  header : Header
  body : List Nat
deriving DecidableEq, Repr

/-- `SXGParams`. -/
structure SXGParams where
  signURL : String
  ampCacheTransformHeader : String
  transformVersion : Int
deriving DecidableEq, Repr

/-- The metadata fields of `transformer.Process` read by the signer. -/
structure Metadata where
  maxAgeSecs : Int
  preloads : List Preload
deriving DecidableEq, Repr

/-- The `signedexchange.Exchange` constructed by `serveSignedExchange`
(after MICE encoding, whose `Digest` header lands in `responseHeaders`). -/
structure Exchange where
  version : String
  uri : String
  method : String
  requestHeaders : Header
  responseStatus : Nat
  responseHeaders : Header
  payload : List Nat
deriving DecidableEq, Repr

/-- The response written to the client. -/
structure Response where
  header : Header
  status : Nat
  body : List Nat
deriving DecidableEq, Repr

/-- The outcome of one request, tagged by the exit path taken. -/
inductive Served where
  | errorResp (r : Response)
  | proxied (r : Response)
  | notModified (r : Response)
  | signed (exchange : Exchange) (date expires : Int) (r : Response)
deriving DecidableEq, Repr

/-- The outer response of any outcome. -/
def servedResponse : Served → Response
  | .errorResp r => r
  | .proxied r => r
  | .notModified r => r
  | .signed _ _ _ r => r

/-- The per-request environment: the request's parameters and headers, and
the results of the collaborators the signer calls out to.

Modelled from the spec: `parseURLs` (URLMatcher, §4.1), `validateFetch`
(§4.6 step 4), `amp_cache_transform.ShouldSendSXG` and `accept.CanSatisfy`
(§4.6 step 2), `transformer.Process` (§4.7 step 1), `util.QuotedString`,
`url.Parse`, MICE encoding / signing / serialization (§4.7 steps 6, 9, 10)
and certificate URL generation (§4.7 step 7) are repository code outside
`src/` or external libraries; they enter the model as oracle fields whose
results the pipeline consumes exactly where the source consumes them. -/
structure Env where
  parseFormError : Bool
  muxSignURL : String
  formFetch : List String
  formSign : List String
  reqHeader : Header
  parseURLs : String → String → Except Nat (String × String × Bool)
  fetchResult : Except Nat FetchResp
  shouldPackageOk : Bool
  requireHeaders : Bool
  shouldSendSXG : String → String × Int
  selectVersion : Except Unit Int
  canSatisfy : String → Bool
  validateFetchOk : Bool
  readBodyError : Bool
  transform : List Nat → String → Int → Except Unit (List Nat × Metadata)
  parsePreloadURL : String → Option String
  quotedString : String → Option String
  miEncode : List Nat → Except Unit (List Nat × String)
  genCertURLResult : Except Unit String
  validityParseOk : Bool
  nowSec : Int
  addSignatureOk : Bool
  serializeResult : Except Unit (List Nat)

/-- Modelled from the spec: `accept.SxgContentType`, the outer content type
`application/signed-exchange;v=b3`. -/
def sxgContentType : String := "application/signed-exchange;v=b3"

/-- Modelled from the spec: `accept.SxgVersion`, the SXG version tag `b3`. -/
def sxgVersion : String := "b3"

/-- The outer header map right after `ServeHTTP` adds
`Vary: Accept, AMP-Cache-Transform`. -/
def initialRespHeader : Header := hAdd [] "Vary" "Accept, AMP-Cache-Transform"

/-- `proxyImpl`: copy the upstream header map into the outer response by
direct map assignment, write the status, then the consumed body bytes, then
the unconsumed remainder of the stream. -/
def proxyImpl (respHeader : Header) (header : Header) (statusCode : Nat)
    (consumedBody : List Nat) (unconsumedBody : List Nat) : Response :=
  { header := header.foldl (fun acc p => hSetAll acc p.1 p.2) respHeader
    status := statusCode
    body := consumedBody ++ unconsumedBody }

/-- `proxyUnconsumed`. -/
def proxyUnconsumed (respHeader : Header) (fetchResp : FetchResp) : Response :=
  proxyImpl respHeader fetchResp.header fetchResp.statusCode [] fetchResp.body

/-- `proxyPartiallyConsumed`: the already-read start of the body, then the
rest of the stream. -/
def proxyPartiallyConsumed (respHeader : Header) (fetchResp : FetchResp)
    (consumedBodyStart : List Nat) (remaining : List Nat) : Response :=
  proxyImpl respHeader fetchResp.header fetchResp.statusCode consumedBodyStart remaining

/-- `proxyConsumed`. -/
def proxyConsumed (respHeader : Header) (consumedFetchResp : FetchResp) : Response :=
  proxyImpl respHeader consumedFetchResp.header consumedFetchResp.statusCode
    consumedFetchResp.body []

/-- The destructive inner-header mutations of `serveSignedExchange`: delete
every stateful header, set or delete `Link`, set `Content-Length`,
`X-Content-Type-Options`, and the rewritten `Content-Security-Policy`. -/
def mutateHeaders (h : Header) (linkHeader : String) (contentLength : Nat) : Header :=
  let h1 := statefulResponseHeaders.foldl hDel h
  let h2 := if linkHeader ≠ "" then hSet h1 "Link" linkHeader else hDel h1 "Link"
  let h3 := hSet h2 "Content-Length" (toString contentLength)
  let h4 := hSet h3 "X-Content-Type-Options" "nosniff"
  hSet h4 "Content-Security-Policy"
    (mutateFetchedCSPString (hGetFirst h4 "Content-Security-Policy"))

/-- The outer headers written on the signed path: the `AMP-Cache-Transform`
echo when present, the SXG content type, a zero freshness lifetime, and
`nosniff`. -/
def signedOuterHeader (respHeader : Header) (ampCacheTransformHeader : String) : Header :=
  let h1 := if ampCacheTransformHeader ≠ "" then
      hSet respHeader "AMP-Cache-Transform" ampCacheTransformHeader
    else respHeader
  let h2 := hSet h1 "Content-Type" sxgContentType
  let h3 := hSet h2 "Cache-Control" "no-transform, max-age=0"
  hSet h3 "X-Content-Type-Options" "nosniff"

/-- `serveSignedExchange`: transform, format the `Link` header, mutate the
inner headers (point of no return), construct and MICE-encode the exchange,
compute the validity window, sign, serialize, and write; every failure
proxies the (possibly already mutated) consumed response. -/
def serveSignedExchange (env : Env) (respHeader : Header) (fetchResp : FetchResp)
    (params : SXGParams) : Served :=
  match env.transform fetchResp.body params.signURL params.transformVersion with
  | .error _ => .proxied (proxyConsumed respHeader fetchResp)
  | .ok (transformed, metadata) =>
    match formatLinkHeader env.parsePreloadURL env.quotedString metadata.preloads with
    | .error _ => .proxied (proxyConsumed respHeader fetchResp)
    | .ok linkHeader =>
      let hdr := mutateHeaders fetchResp.header linkHeader transformed.length
      match env.miEncode transformed with
      | .error _ => .proxied (proxyConsumed respHeader { fetchResp with header := hdr })
      | .ok (encodedPayload, digest) =>
        let hdr2 := hSet hdr "Digest" digest
        let exchange : Exchange :=
          { version := sxgVersion, uri := params.signURL, method := "GET",
            requestHeaders := [], responseStatus := fetchResp.statusCode,
            responseHeaders := hdr2, payload := encodedPayload }
        let mutated : FetchResp := { fetchResp with header := hdr2 }
        match env.genCertURLResult with
        | .error _ => .proxied (proxyConsumed respHeader mutated)
        | .ok _certURL =>
          if !env.validityParseOk then .proxied (proxyConsumed respHeader mutated)
          else
            let duration := min (7 * 24 * 3600) metadata.maxAgeSecs
            let date := env.nowSec - 24 * 3600
            let expires := date + duration
            if !(env.nowSec < expires) then .proxied (proxyConsumed respHeader mutated)
            else if !env.addSignatureOk then .proxied (proxyConsumed respHeader mutated)
            else
              match env.serializeResult with
              | .error _ => .proxied (proxyConsumed respHeader mutated)
              | .ok bodyBytes =>
                .signed exchange date expires
                  ⟨signedOuterHeader respHeader params.ampCacheTransformHeader,
                   200, bodyBytes⟩

/-- `consumeAndSign`: read the body with a hard cap; when the cap is reached
the response is proxied (already-read start, then the remaining stream),
otherwise the consumed response is signed. -/
def consumeAndSign (env : Env) (respHeader : Header) (fetchResp : FetchResp)
    (params : SXGParams) : Served :=
  if env.readBodyError then .errorResp ⟨respHeader, 502, []⟩
  else
    let fetchBodyMaybeCapped := fetchResp.body.take maxSignableBodyLength
    if fetchBodyMaybeCapped.length = maxSignableBodyLength then
      .proxied (proxyPartiallyConsumed respHeader fetchResp fetchBodyMaybeCapped
        (fetchResp.body.drop maxSignableBodyLength))
    else
      serveSignedExchange env respHeader
        { statusCode := fetchResp.statusCode, header := fetchResp.header,
          body := fetchBodyMaybeCapped } params

/-- Parameter extraction in `ServeHTTP`: a path-supplied `signURL` wins and
skips the form-value checks; otherwise at most one `fetch` and exactly one
`sign` form value are required. -/
def extractParams (env : Env) : Except Nat (String × String) :=
  if env.muxSignURL ≠ "" then .ok ("", env.muxSignURL)
  else if env.formFetch.length > 1 then .error 400
  else if env.formSign.length ≠ 1 then .error 400
  else .ok (env.formFetch.headD "", env.formSign.headD "")

/-- Content negotiation: parse `AMP-Cache-Transform` when `requireHeaders`
is set, else select the default transform version. -/
def negotiate (env : Env) : Except Unit (String × Int) :=
  if env.requireHeaders then
    let r := env.shouldSendSXG (getJoined env.reqHeader "AMP-Cache-Transform")
    if r.1 = "" then .error () else .ok r
  else
    match env.selectVersion with
    | .error e => .error e
    | .ok v => .ok ("", v)

/-- The `304` branch: copy through the `statusNotModifiedHeaders` present
upstream, write `304`, no body. -/
def notModifiedResponse (respHeader : Header) (fetchResp : FetchResp) : Response :=
  ⟨statusNotModifiedHeaders.foldl
      (fun h name =>
        if getJoined fetchResp.header name ≠ "" then
          hSet h name (getJoined fetchResp.header name)
        else h)
      respHeader,
    304, []⟩

/-- `ServeHTTP`: the admission gates and the sign / 304 / proxy dispatch. -/
def serveHTTP (env : Env) : Served :=
  let respHeader := initialRespHeader
  if env.parseFormError then .errorResp ⟨respHeader, 400, []⟩
  else
    match extractParams env with
    | .error code => .errorResp ⟨respHeader, code, []⟩
    | .ok (_fetch, _sign) =>
      match env.parseURLs _fetch _sign with
      | .error code => .errorResp ⟨respHeader, code, []⟩
      | .ok (_fetchURL, signURL, errorOnStatefulHeaders) =>
        match env.fetchResult with
        | .error code => .errorResp ⟨respHeader, code, []⟩
        | .ok fetchResp =>
          if !env.shouldPackageOk then
            .proxied (proxyUnconsumed respHeader fetchResp)
          else
            match negotiate env with
            | .error _ => .proxied (proxyUnconsumed respHeader fetchResp)
            | .ok (act, transformVersion) =>
              if env.requireHeaders &&
                  !env.canSatisfy (getJoined env.reqHeader "Accept") then
                .proxied (proxyUnconsumed respHeader fetchResp)
              else if fetchResp.statusCode = 200 then
                if !env.validateFetchOk then
                  .proxied (proxyUnconsumed respHeader fetchResp)
                else if errorOnStatefulHeaders &&
                    statefulResponseHeaders.any
                      (fun name => getJoined fetchResp.header name ≠ "") then
                  .proxied (proxyUnconsumed respHeader fetchResp)
                else if hGetFirst fetchResp.header "Variants" ≠ "" ∨
                    hGetFirst fetchResp.header "Variant-Key" ≠ "" ∨
                    hGetFirst fetchResp.header "Variants-04" ≠ "" ∨
                    hGetFirst fetchResp.header "Variant-Key-04" ≠ "" then
                  .proxied (proxyUnconsumed respHeader fetchResp)
                else
                  consumeAndSign env respHeader fetchResp
                    ⟨signURL, act, transformVersion⟩
              else if fetchResp.statusCode = 304 then
                .notModified (notModifiedResponse respHeader fetchResp)
              else
                .proxied (proxyUnconsumed respHeader fetchResp)

/-- A concrete environment in which every admission gate passes and every
collaborator succeeds; the baseline for witnesses. -/
def envHappy : Env :=
  { parseFormError := false
    muxSignURL := ""
    formFetch := []
    formSign := ["https://example.com/doc"]
    reqHeader := []
    parseURLs := fun _ s => .ok (s, s, false)
    fetchResult := .ok ⟨200, [("Content-Type", ["text/html"])], [72, 105]⟩
    shouldPackageOk := true
    requireHeaders := false
    shouldSendSXG := fun _ => ("", 0)
    selectVersion := .ok 1
    canSatisfy := fun _ => true
    validateFetchOk := true
    readBodyError := false
    transform := fun b _ _ => .ok (b, ⟨90000, []⟩)
    parsePreloadURL := fun s => some s
    quotedString := fun s => some s
    miEncode := fun b => .ok (b, "mi-sha256-03=abc")
    genCertURLResult := .ok "https://example.com/amppkg/cert/x"
    validityParseOk := true
    nowSec := 1000000
    addSignatureOk := true
    serializeResult := .ok [1, 2, 3] }

/-- A 4 MiB body, for the oversize witness. -/
def oversizedBody : List Nat := List.replicate maxSignableBodyLength 0

/-- The concrete environment refuting C8: routing supplies the sign URL as a
path parameter and the form carries two `fetch` values; upstream answers 500. -/
def envPathParam : Env :=
  { envHappy with muxSignURL := "https://path.example/doc",
                  formFetch := ["https://a.example/x", "https://a.example/y"],
                  formSign := [],
                  fetchResult := .ok ⟨500, [("Retry-After", ["60"])], [104, 105]⟩ }

/-- Whether an outcome emitted a signed exchange. -/
def isSigned : Served → Bool
  | .signed _ _ _ _ => true
  | _ => false

/-- The exchange `envHappy` produces. -/
def exHappy : Exchange :=
  ⟨"b3", "https://example.com/doc", "GET", [], 200,
    [("Content-Type", ["text/html"]), ("Content-Length", ["2"]),
     ("X-Content-Type-Options", ["nosniff"]),
     ("Content-Security-Policy", [cspSuffix]),
     ("Digest", ["mi-sha256-03=abc"])], [72, 105]⟩

/-- The outer response `envHappy` produces. -/
def respHappy : Response :=
  ⟨[("Vary", ["Accept, AMP-Cache-Transform"]),
    ("Content-Type", [sxgContentType]),
    ("Cache-Control", ["no-transform, max-age=0"]),
    ("X-Content-Type-Options", ["nosniff"])], 200, [1, 2, 3]⟩

/-- `envHappy` with transform metadata reporting `max_age_secs = 3600`. -/
def env3600 : Env := { envHappy with transform := fun b _ _ => .ok (b, ⟨3600, []⟩) }

/-- An upstream 304 response carrying only `ETag`. -/
def env304 : Env :=
  { envHappy with fetchResult := .ok ⟨304, [("ETag", ["\"abc\""])], []⟩ }

/-- An upstream 500 response carrying its own `Vary` header. -/
def envVary : Env :=
  { envHappy with fetchResult := .ok ⟨500, [("Vary", ["User-Agent"])], []⟩ }

/-! ### Lemmas about the CSP rewriter -/

lemma splitSemi_ne_nil (l : List Char) : splitSemi l ≠ [] := by
  cases l with
  | nil => simp [splitSemi]
  | cons c r =>
    simp only [splitSemi]
    split
    · simp
    · split <;> simp

lemma mem_splitSemi_no_semi (l : List Char) : ∀ t ∈ splitSemi l, ';' ∉ t := by
  induction l with
  | nil => intro t ht; simp [splitSemi] at ht; simp [ht]
  | cons c r ih =>
    intro t ht
    simp only [splitSemi] at ht
    by_cases hc : c = ';'
    · simp [hc] at ht
      rcases ht with h | h
      · simp [h]
      · exact ih t h
    · simp [hc] at ht
      rcases hr : splitSemi r with _ | ⟨x, xs⟩
      · exact absurd hr (splitSemi_ne_nil r)
      · rw [hr] at ht
        simp at ht
        rcases ht with h | h
        · subst h
          intro hmem
          rcases List.mem_cons.mp hmem with h | h
          · exact hc h.symm
          · exact ih x (by rw [hr]; exact List.mem_cons_self x xs) h
        · exact ih t (by rw [hr]; exact List.mem_cons_of_mem x h)

lemma splitSemi_append_semi (x : List Char) (hx : ';' ∉ x) (r : List Char) :
    splitSemi (x ++ ';' :: r) = x :: splitSemi r := by
  induction x with
  | nil => simp [splitSemi]
  | cons c x ih =>
    have hc : c ≠ ';' := fun h => hx (h ▸ List.mem_cons_self c x)
    have hx' : ';' ∉ x := fun h => hx (List.mem_cons_of_mem c h)
    simp only [List.cons_append, splitSemi, if_neg hc]
    rw [show x.append (';' :: r) = x ++ (';' :: r) from rfl, ih hx']

lemma trimSpace_eq (l : List Char) :
    trimSpace l = (l.dropWhile goIsSpace).rdropWhile goIsSpace := rfl

lemma dropWhile_rdropWhile_dropWhile (l : List Char) :
    ((l.dropWhile goIsSpace).rdropWhile goIsSpace).dropWhile goIsSpace =
      (l.dropWhile goIsSpace).rdropWhile goIsSpace := by
  rw [List.dropWhile_eq_self_iff]
  intro hl hp
  obtain ⟨t, ht⟩ : List.dropWhile goIsSpace (l.dropWhile goIsSpace).reverse <:+
      (l.dropWhile goIsSpace).reverse := List.dropWhile_suffix _
  have hm2 : l.dropWhile goIsSpace =
      (l.dropWhile goIsSpace).rdropWhile goIsSpace ++ t.reverse := by
    have h2 := congrArg List.reverse ht
    simpa [List.rdropWhile, List.reverse_append] using h2.symm
  have hl' : 0 < (l.dropWhile goIsSpace).length := by
    rw [hm2, List.length_append]
    omega
  have hget : (l.dropWhile goIsSpace).get ⟨0, hl'⟩ =
      ((l.dropWhile goIsSpace).rdropWhile goIsSpace).get ⟨0, hl⟩ := by
    simp only [List.get_eq_getElem]
    rw [List.getElem_of_eq hm2 hl']
    exact List.getElem_append_left hl
  have hnot := List.dropWhile_get_zero_not goIsSpace l hl'
  rw [hget] at hnot
  exact hnot hp

lemma trimSpace_idem (l : List Char) : trimSpace (trimSpace l) = trimSpace l := by
  rw [trimSpace_eq (trimSpace l), trimSpace_eq l, dropWhile_rdropWhile_dropWhile,
    List.rdropWhile_idempotent, ← trimSpace_eq l]

lemma mem_trimSpace {c : Char} {l : List Char} (h : c ∈ trimSpace l) : c ∈ l := by
  have h1 : List.Sublist (trimSpace l) (trimLeftSpace l) := by
    simp only [trimSpace, trimRightSpace]
    have hs := (List.dropWhile_sublist (l := (trimLeftSpace l).reverse) goIsSpace).reverse
    simpa using hs
  have h2 : List.Sublist (trimLeftSpace l) l := List.dropWhile_sublist _
  exact (h1.trans h2).subset h

lemma cspKeep_eq_some {tok t : List Char} (h : cspKeep tok = some t) :
    t = trimSpace tok ∧ fields t ≠ [] ∧ tokenName t ∈ cspPreservedNames := by
  unfold cspKeep at h
  rcases hf : fields (trimSpace tok) with _ | ⟨name, rest⟩ <;> simp only [hf] at h
  · exact absurd h (by simp)
  · by_cases hn : (name.map goToLower) ∈ cspPreservedNames
    · simp only [if_pos hn, Option.some.injEq] at h
      subst h
      refine ⟨rfl, by simp [hf], ?_⟩
      simp [tokenName, hf, hn]
    · simp [if_neg hn] at h

lemma cspKeep_idem {tok t : List Char} (h : cspKeep tok = some t) :
    cspKeep t = some t := by
  obtain ⟨ht, -, -⟩ := cspKeep_eq_some h
  subst ht
  unfold cspKeep at h ⊢
  simp only [trimSpace_idem]
  exact h

lemma foldr_cspStep_eq (ts : List (List Char)) (acc : List Char) :
    ts.foldr cspStep acc =
      (ts.filterMap cspKeep).foldr (fun t a => t ++ ';' :: a) acc := by
  induction ts with
  | nil => rfl
  | cons tok ts ih =>
    simp only [List.foldr_cons, List.filterMap_cons, cspStep]
    rcases h : cspKeep tok with _ | t <;> simp [ih]

lemma mem_cspPreservedTokens {l t : List Char} (h : t ∈ cspPreservedTokens l) :
    ∃ tok ∈ splitSemi l, cspKeep tok = some t := by
  simpa [cspPreservedTokens, List.mem_filterMap] using h

lemma mem_cspPreservedTokens_no_semi {l t : List Char}
    (h : t ∈ cspPreservedTokens l) : ';' ∉ t := by
  obtain ⟨tok, htok, hk⟩ := mem_cspPreservedTokens h
  obtain ⟨ht, -, -⟩ := cspKeep_eq_some hk
  intro hc
  exact mem_splitSemi_no_semi l tok htok (mem_trimSpace (ht ▸ hc))

lemma splitSemi_foldr (ts : List (List Char)) (h : ∀ t ∈ ts, ';' ∉ t)
    (r : List Char) :
    splitSemi (ts.foldr (fun t a => t ++ ';' :: a) r) = ts ++ splitSemi r := by
  induction ts with
  | nil => rfl
  | cons t ts ih =>
    simp only [List.foldr_cons, List.cons_append]
    rw [splitSemi_append_semi t (h t (List.mem_cons_self t ts)),
      ih (fun u hu => h u (List.mem_cons_of_mem t hu))]

/-- Splitting the rewriter's output on `;` yields exactly the preserved
trimmed input tokens followed by the five fixed directive tokens. -/
lemma splitSemi_mutateFetchedCSP (l : List Char) :
    splitSemi (mutateFetchedCSP l) = cspPreservedTokens l ++ cspFixedTokens := by
  rw [mutateFetchedCSP, foldr_cspStep_eq, ← cspPreservedTokens,
    splitSemi_foldr _ (fun t ht => mem_cspPreservedTokens_no_semi ht), cspFixedTokens]

set_option maxRecDepth 40000 in
lemma cspKeep_fixed_none : ∀ t ∈ cspFixedTokens, cspKeep t = none := by decide

lemma foldr_cspStep_none {ts : List (List Char)} (h : ∀ t ∈ ts, cspKeep t = none)
    (acc : List Char) : ts.foldr cspStep acc = acc := by
  induction ts with
  | nil => rfl
  | cons t ts ih =>
    simp only [List.foldr_cons, cspStep, h t (List.mem_cons_self t ts)]
    exact ih (fun u hu => h u (List.mem_cons_of_mem t hu))

lemma filterMap_cspKeep_self {ts : List (List Char)}
    (h : ∀ t ∈ ts, cspKeep t = some t) : ts.filterMap cspKeep = ts := by
  induction ts with
  | nil => rfl
  | cons t ts ih =>
    simp only [List.filterMap_cons, h t (List.mem_cons_self t ts)]
    rw [ih (fun u hu => h u (List.mem_cons_of_mem t hu))]

set_option maxRecDepth 40000 in
lemma cspFixed_fields : ∀ t ∈ cspFixedTokens, fields t ≠ [] ∧ tokenName t ∈ cspFixedNames := by
  decide

set_option maxRecDepth 80000 in
/-- **C5.** For every input string, the directive tokens of the rewritten CSP
are exactly the trimmed preserved input tokens followed by the five fixed
directives (spelled out verbatim); every output token is nonempty and named by
one of the seven pass-through names or the five fixed names; and every
preserved token is the trim of an input token whose lowercased name is a
pass-through name (case-insensitive matching, verbatim preservation, empty
tokens skipped). -/
theorem csp_rewrite_structure (s : String) :
    splitSemi (mutateFetchedCSPString s).data =
        cspPreservedTokens s.data ++ cspFixedTokens
    ∧ cspFixedTokens =
        ["default-src * blob: data:".data,
         "report-uri https://csp.withgoogle.com/csp/amp".data,
         ("script-src blob: https://cdn.ampproject.org/rtv/ " ++
          "https://cdn.ampproject.org/v0.js " ++
          "https://cdn.ampproject.org/v0/ " ++
          "https://cdn.ampproject.org/lts/ " ++
          "https://cdn.ampproject.org/viewer/").data,
         ("style-src 'unsafe-inline' https://cdn.materialdesignicons.com " ++
          "https://cloud.typography.com https://fast.fonts.net " ++
          "https://fonts.googleapis.com https://maxcdn.bootstrapcdn.com " ++
          "https://p.typekit.net https://pro.fontawesome.com " ++
          "https://use.fontawesome.com https://use.typekit.net").data,
         "object-src 'none'".data]
    ∧ (∀ t ∈ splitSemi (mutateFetchedCSPString s).data,
        fields t ≠ [] ∧ tokenName t ∈ cspPreservedNames ++ cspFixedNames)
    ∧ (∀ t ∈ cspPreservedTokens s.data,
        ∃ tok ∈ splitSemi s.data, t = trimSpace tok ∧ tokenName t ∈ cspPreservedNames) := by
  have hsplit : splitSemi (mutateFetchedCSPString s).data =
      cspPreservedTokens s.data ++ cspFixedTokens := splitSemi_mutateFetchedCSP s.data
  refine ⟨hsplit, by decide, ?_, ?_⟩
  · intro t ht
    rw [hsplit] at ht
    rcases List.mem_append.mp ht with h | h
    · obtain ⟨tok, -, hk⟩ := mem_cspPreservedTokens h
      obtain ⟨-, hf, hn⟩ := cspKeep_eq_some hk
      exact ⟨hf, List.mem_append.mpr (Or.inl hn)⟩
    · obtain ⟨hf, hn⟩ := cspFixed_fields t h
      exact ⟨hf, List.mem_append.mpr (Or.inr hn)⟩
  · intro t ht
    obtain ⟨tok, htok, hk⟩ := mem_cspPreservedTokens ht
    obtain ⟨he, -, hn⟩ := cspKeep_eq_some hk
    exact ⟨tok, htok, he, hn⟩

set_option maxRecDepth 40000 in
/-- Witness for `csp_rewrite_structure` at a concrete policy string. -/
theorem csp_rewrite_structure_witness :
    ∃ tok ∈ splitSemi "script-src 'self'; font-src https://f.example".data,
      "font-src https://f.example".data = trimSpace tok ∧
      tokenName "font-src https://f.example".data ∈ cspPreservedNames :=
  (csp_rewrite_structure "script-src 'self'; font-src https://f.example").2.2.2
    "font-src https://f.example".data (by decide)

/-- **C10.** `MutateFetchedContentSecurityPolicy` is idempotent: applying it to
its own output returns the output unchanged. -/
theorem mutateFetchedCSP_idempotent (s : String) :
    mutateFetchedCSPString (mutateFetchedCSPString s) = mutateFetchedCSPString s := by
  suffices h : mutateFetchedCSP (mutateFetchedCSP s.data) = mutateFetchedCSP s.data by
    simp only [mutateFetchedCSPString]
    exact congrArg String.mk h
  have hkeep : ∀ t ∈ cspPreservedTokens s.data, cspKeep t = some t := by
    intro t ht
    obtain ⟨tok, -, hk⟩ := mem_cspPreservedTokens ht
    exact cspKeep_idem hk
  calc mutateFetchedCSP (mutateFetchedCSP s.data)
      = (cspPreservedTokens s.data ++ cspFixedTokens).foldr cspStep cspSuffix.data := by
        rw [mutateFetchedCSP, splitSemi_mutateFetchedCSP]
    _ = (cspPreservedTokens s.data).foldr cspStep
          (cspFixedTokens.foldr cspStep cspSuffix.data) := by
        rw [List.foldr_append]
    _ = (cspPreservedTokens s.data).foldr cspStep cspSuffix.data := by
        rw [foldr_cspStep_none cspKeep_fixed_none]
    _ = ((cspPreservedTokens s.data).filterMap cspKeep).foldr
          (fun t a => t ++ ';' :: a) cspSuffix.data := foldr_cspStep_eq _ _
    _ = (cspPreservedTokens s.data).foldr (fun t a => t ++ ';' :: a) cspSuffix.data := by
        rw [filterMap_cspKeep_self hkeep]
    _ = mutateFetchedCSP s.data := by
        rw [mutateFetchedCSP, foldr_cspStep_eq, cspPreservedTokens]

/-! ### Lemmas about the header map -/

lemma hGet_nil (n : String) : hGet [] n = none := rfl

lemma hGet_cons (p : String × List String) (h : Header) (n : String) :
    hGet (p :: h) n = if p.1 = n then some p.2 else hGet h n := by
  by_cases hp : p.1 = n <;> simp [hGet, List.find?_cons, hp]

lemma hDel_cons (p : String × List String) (h : Header) (k : String) :
    hDel (p :: h) k = if p.1 = k then hDel h k else p :: hDel h k := by
  by_cases hp : p.1 = k <;> simp [hDel, List.filter_cons, hp]

lemma hGet_hDel (h : Header) (k n : String) :
    hGet (hDel h k) n = if n = k then none else hGet h n := by
  induction h with
  | nil => by_cases hn : n = k <;> simp [hDel, hGet_nil, hn]
  | cons p h ih =>
    rw [hDel_cons]
    by_cases hp : p.1 = k
    · rw [if_pos hp, ih, hGet_cons]
      by_cases hn : n = k
      · simp [hn]
      · rw [if_neg hn, if_neg hn, if_neg (fun hh => hn (by rw [← hh, hp]))]
    · rw [if_neg hp, hGet_cons, hGet_cons, ih]
      by_cases hq : p.1 = n
      · rw [if_pos hq, if_pos hq, if_neg (fun hh => hp (hq.trans hh))]
      · rw [if_neg hq, if_neg hq]

lemma hGet_append (h g : Header) (n : String) :
    hGet (h ++ g) n = match hGet h n with
      | some vs => some vs
      | none => hGet g n := by
  induction h with
  | nil => simp [hGet_nil]
  | cons p h ih =>
    rw [List.cons_append, hGet_cons, hGet_cons]
    by_cases hp : p.1 = n <;> simp [hp, ih]

lemma hGet_hSetAll (h : Header) (k : String) (vs : List String) (n : String) :
    hGet (hSetAll h k vs) n = if n = k then some vs else hGet h n := by
  rw [hSetAll, hGet_append, hGet_hDel, hGet_cons]
  by_cases hn : n = k
  · simp [hn]
  · simp only [if_neg hn, if_neg (fun hh : k = n => hn (hh ▸ rfl))]
    cases hGet h n <;> simp [hGet_nil]

lemma hGet_hSet (h : Header) (k v n : String) :
    hGet (hSet h k v) n = if n = k then some [v] else hGet h n :=
  hGet_hSetAll h k [v] n

lemma hGet_foldl_hDel (names : List String) (h : Header) (n : String) :
    hGet (names.foldl hDel h) n = if n ∈ names then none else hGet h n := by
  induction names generalizing h with
  | nil => simp
  | cons k names ih =>
    rw [List.foldl_cons, ih, hGet_hDel]
    by_cases hn : n ∈ names
    · simp [hn]
    · by_cases hk : n = k <;> simp [hn, hk]

lemma getJoined_of_none {h : Header} {n : String} (hn : hGet h n = none) :
    getJoined h n = "" := by
  rw [getJoined, hn]

lemma hGet_none_iff (h : Header) (n : String) :
    hGet h n = none ↔ ∀ p ∈ h, p.1 ≠ n := by
  induction h with
  | nil => simp [hGet_nil]
  | cons p h ih =>
    rw [hGet_cons]
    by_cases hp : p.1 = n <;> simp [hp, ih]

/-- Header maps produced by Go's HTTP layer have no empty value lists. -/
def headerWF (h : Header) : Prop := ∀ p ∈ h, p.2 ≠ []

lemma headerWF_hDel {h : Header} (hw : headerWF h) (k : String) :
    headerWF (hDel h k) := fun p hp => hw p (List.mem_of_mem_filter hp)

lemma headerWF_hSetAll {h : Header} (hw : headerWF h) (k : String)
    {vs : List String} (hvs : vs ≠ []) : headerWF (hSetAll h k vs) := by
  intro p hp
  rcases List.mem_append.mp hp with hm | hm
  · exact headerWF_hDel hw k p hm
  · simp at hm
    subst hm
    exact hvs

lemma headerWF_hSet {h : Header} (hw : headerWF h) (k v : String) :
    headerWF (hSet h k v) := headerWF_hSetAll hw k (by simp)

lemma headerWF_foldl_hDel {h : Header} (hw : headerWF h) (names : List String) :
    headerWF (names.foldl hDel h) := by
  induction names generalizing h with
  | nil => exact hw
  | cons k names ih => exact ih (headerWF_hDel hw k)

lemma headerWF_mutateHeaders {h : Header} (hw : headerWF h)
    (lk : String) (cl : Nat) : headerWF (mutateHeaders h lk cl) := by
  unfold mutateHeaders
  apply headerWF_hSet
  apply headerWF_hSet
  apply headerWF_hSet
  split
  · exact headerWF_hSet (headerWF_foldl_hDel hw _) _ _
  · exact headerWF_hDel (headerWF_foldl_hDel hw _) _

lemma hGet_mutateHeaders (h : Header) (lk : String) (cl : Nat) (n : String)
    (h1 : n ∉ statefulResponseHeaders)
    (h2 : n ≠ "Link") (h3 : n ≠ "Content-Length")
    (h4 : n ≠ "X-Content-Type-Options") (h5 : n ≠ "Content-Security-Policy") :
    hGet (mutateHeaders h lk cl) n = hGet h n := by
  unfold mutateHeaders
  rw [hGet_hSet, if_neg h5, hGet_hSet, if_neg h4, hGet_hSet, if_neg h3]
  split
  · rw [hGet_hSet, if_neg h2, hGet_foldl_hDel, if_neg h1]
  · rw [hGet_hDel, if_neg h2, hGet_foldl_hDel, if_neg h1]

lemma hGet_proxyFold_not_mem (entries : Header) (h : Header) (n : String)
    (hn : ∀ p ∈ entries, p.1 ≠ n) :
    hGet (entries.foldl (fun acc p => hSetAll acc p.1 p.2) h) n = hGet h n := by
  induction entries generalizing h with
  | nil => rfl
  | cons p entries ih =>
    rw [List.foldl_cons, ih _ (fun q hq => hn q (List.mem_cons_of_mem p hq)),
      hGet_hSetAll, if_neg (fun hh : n = p.1 => hn p (List.mem_cons_self p entries) (hh ▸ rfl))]

lemma hGet_proxyFold_some (entries : Header) (h : Header) (n : String)
    (hwf : ∀ p ∈ entries, p.2 ≠ []) {vs0 : List String}
    (h0 : hGet h n = some vs0) (h0ne : vs0 ≠ []) :
    ∃ vs, hGet (entries.foldl (fun acc p => hSetAll acc p.1 p.2) h) n = some vs ∧ vs ≠ [] := by
  induction entries generalizing h vs0 with
  | nil => exact ⟨vs0, h0, h0ne⟩
  | cons p entries ih =>
    rw [List.foldl_cons]
    by_cases hp : n = p.1
    · exact ih _ (fun q hq => hwf q (List.mem_cons_of_mem p hq))
        (by rw [hGet_hSetAll, if_pos hp]) (hwf p (List.mem_cons_self p entries))
    · exact ih _ (fun q hq => hwf q (List.mem_cons_of_mem p hq))
        (by rw [hGet_hSetAll, if_neg hp]; exact h0) h0ne

lemma hGet_foldl_setIf_not_mem (frh : Header) (names : List String) (h : Header)
    (n : String) (hn : n ∉ names) :
    hGet (names.foldl
      (fun h name =>
        if getJoined frh name ≠ "" then hSet h name (getJoined frh name) else h)
      h) n = hGet h n := by
  induction names generalizing h with
  | nil => rfl
  | cons k names ih =>
    have hnk : n ≠ k := fun hh => hn (hh ▸ List.mem_cons_self k names)
    have hn' : n ∉ names := fun hh => hn (List.mem_cons_of_mem k hh)
    rw [List.foldl_cons, ih _ hn']
    by_cases hk : getJoined frh k ≠ ""
    · rw [if_pos hk, hGet_hSet, if_neg hnk]
    · rw [if_neg hk]

lemma hGet_foldl_setIf_mem (frh : Header) (names : List String) (h : Header)
    (n : String) (hnd : names.Nodup) (hn : n ∈ names) :
    hGet (names.foldl
      (fun h name =>
        if getJoined frh name ≠ "" then hSet h name (getJoined frh name) else h)
      h) n =
      if getJoined frh n ≠ "" then some [getJoined frh n] else hGet h n := by
  induction names generalizing h with
  | nil => simp at hn
  | cons k names ih =>
    rw [List.foldl_cons]
    rcases List.mem_cons.mp hn with hk | hm
    · subst hk
      have hnot : n ∉ names := (List.nodup_cons.mp hnd).1
      rw [hGet_foldl_setIf_not_mem frh names _ n hnot]
      by_cases hv : getJoined frh n ≠ ""
      · rw [if_pos hv, if_pos hv, hGet_hSet, if_pos rfl]
      · rw [if_neg hv, if_neg hv]
    · have hnk : n ≠ k := fun hh => (List.nodup_cons.mp hnd).1 (hh ▸ hm)
      rw [ih _ (List.nodup_cons.mp hnd).2 hm]
      by_cases hv : getJoined frh n ≠ ""
      · rw [if_pos hv, if_pos hv]
      · rw [if_neg hv, if_neg hv]
        by_cases hk : getJoined frh k ≠ ""
        · rw [if_pos hk, hGet_hSet, if_neg hnk]
        · rw [if_neg hk]

/-! ### `formatLinkHeader` lemmas (C9) -/

lemma formatLinkValues_error (parseURL : String → Option String)
    (quote : String → Option String) (preloads : List Preload)
    (h : ∃ p ∈ preloads, parseURL p.Url = none ∨ p.As = "") :
    formatLinkValues parseURL quote preloads = .error () := by
  induction preloads with
  | nil => simp at h
  | cons p rest ih =>
    obtain ⟨q, hq, hbad⟩ := h
    rcases List.mem_cons.mp hq with hq | hq
    · subst hq
      rcases hbad with hbad | hbad
      · simp [formatLinkValues, hbad]
      · rcases hu : parseURL q.Url with _ | u
        · simp [formatLinkValues, hu]
        · simp [formatLinkValues, hu, hbad]
    · have herr := ih ⟨q, hq, hbad⟩
      rcases hu : parseURL p.Url with _ | u
      · simp [formatLinkValues, hu]
      · by_cases ha : p.As = ""
        · simp [formatLinkValues, hu, ha]
        · rcases he : encodeAttrs quote p.Attributes with _ | attrs
          · simp [formatLinkValues, hu, ha, he, herr]
          · simp [formatLinkValues, hu, ha, he, herr, Except.map]

lemma formatLinkValues_ok (parseURL : String → Option String)
    (quote : String → Option String) (preloads : List Preload)
    (h : ∀ p ∈ preloads, parseURL p.Url ≠ none ∧ p.As ≠ "") :
    formatLinkValues parseURL quote preloads =
      .ok (preloads.filterMap (serializePreload parseURL quote)) := by
  induction preloads with
  | nil => rfl
  | cons p rest ih =>
    obtain ⟨hu, ha⟩ := h p (List.mem_cons_self p rest)
    have hrest := ih (fun q hq => h q (List.mem_cons_of_mem p hq))
    rcases hup : parseURL p.Url with _ | u
    · exact absurd hup hu
    · rcases he : encodeAttrs quote p.Attributes with _ | attrs
      · simp [formatLinkValues, hup, ha, he, hrest, List.filterMap_cons,
          serializePreload]
      · simp [formatLinkValues, hup, ha, he, hrest, List.filterMap_cons,
          serializePreload, Except.map]

/-- **C9.** `formatLinkHeader` fails the whole call when any record has an
unparsable URL or a missing `as`; otherwise it succeeds, serializing every
record whose attributes encode as quoted-strings and skipping (only) the
records with an unencodable attribute value. -/
theorem formatLinkHeader_error_and_skip (parseURL : String → Option String)
    (quote : String → Option String) (preloads : List Preload) :
    ((∃ p ∈ preloads, parseURL p.Url = none ∨ p.As = "") →
      formatLinkHeader parseURL quote preloads = .error ())
    ∧ ((∀ p ∈ preloads, parseURL p.Url ≠ none ∧ p.As ≠ "") →
      formatLinkHeader parseURL quote preloads =
        .ok (String.intercalate ","
          (preloads.filterMap (serializePreload parseURL quote)))) := by
  constructor
  · intro h
    rw [formatLinkHeader, formatLinkValues_error parseURL quote preloads h]
    rfl
  · intro h
    rw [formatLinkHeader, formatLinkValues_ok parseURL quote preloads h]
    rfl

/-- Witness: a record with an unencodable attribute is skipped while the rest
are serialized, and a record with an unparsable URL fails the call. -/
theorem formatLinkHeader_error_and_skip_witness :
    formatLinkHeader linkParseURL0 linkQuote0 linkPreloads0 =
      .ok ("<https://pub.example/a.js>;rel=preload;as=script;media=\"print\"," ++
        "<https://pub.example/c.css>;rel=preload;as=style")
    ∧ formatLinkHeader linkParseURL0 linkQuote0 [⟨":bad", "script", []⟩] = .error () :=
  ⟨(formatLinkHeader_error_and_skip linkParseURL0 linkQuote0 linkPreloads0).2
      (by decide),
   (formatLinkHeader_error_and_skip linkParseURL0 linkQuote0
      [⟨":bad", "script", []⟩]).1 ⟨⟨":bad", "script", []⟩, by decide, Or.inl (by decide)⟩⟩

/-! ### Size admission (C3) -/

/-- **C3.** A fetched body of length at least `maxSignableBodyLength` is
proxied unsigned, the response body being the consumed cap-length start of
the body followed by the remaining stream, i.e. the full fetched body. -/
theorem consumeAndSign_oversized (env : Env) (respHeader : Header)
    (fetchResp : FetchResp) (params : SXGParams)
    (hread : env.readBodyError = false)
    (hlen : maxSignableBodyLength ≤ fetchResp.body.length) :
    consumeAndSign env respHeader fetchResp params =
      .proxied (proxyPartiallyConsumed respHeader fetchResp
        (fetchResp.body.take maxSignableBodyLength)
        (fetchResp.body.drop maxSignableBodyLength))
    ∧ (servedResponse (consumeAndSign env respHeader fetchResp params)).body =
        fetchResp.body
    ∧ (servedResponse (consumeAndSign env respHeader fetchResp params)).status =
        fetchResp.statusCode := by
  have hcap : (fetchResp.body.take maxSignableBodyLength).length =
      maxSignableBodyLength := by
    rw [List.length_take]
    exact Nat.min_eq_left hlen
  have h1 : consumeAndSign env respHeader fetchResp params =
      .proxied (proxyPartiallyConsumed respHeader fetchResp
        (fetchResp.body.take maxSignableBodyLength)
        (fetchResp.body.drop maxSignableBodyLength)) := by
    rw [consumeAndSign, hread]
    simp only [Bool.false_eq_true, if_false, hcap, if_true]
  refine ⟨h1, ?_, ?_⟩ <;>
    simp [h1, servedResponse, proxyPartiallyConsumed, proxyImpl]

/-- Witness for `consumeAndSign_oversized` on a body of exactly 4 MiB. -/
theorem consumeAndSign_oversized_witness :
    consumeAndSign envHappy initialRespHeader ⟨200, [], oversizedBody⟩
        ⟨"https://example.com/doc", "", 1⟩ =
      .proxied (proxyPartiallyConsumed initialRespHeader ⟨200, [], oversizedBody⟩
        (oversizedBody.take maxSignableBodyLength)
        (oversizedBody.drop maxSignableBodyLength)) :=
  (consumeAndSign_oversized envHappy initialRespHeader ⟨200, [], oversizedBody⟩
    ⟨"https://example.com/doc", "", 1⟩ rfl
    (by simp [oversizedBody, List.length_replicate])).1

/-! ### Parameter extraction (C8) -/

/-- **C8 (counterexample).** With a path-supplied sign URL and two `fetch`
form values, the handler does not answer 400 BAD_REQUEST: it proceeds and
proxies the upstream response (here a 500). -/
theorem pathParam_two_fetch_not_bad_request :
    serveHTTP envPathParam =
      .proxied (proxyUnconsumed initialRespHeader
        ⟨500, [("Retry-After", ["60"])], [104, 105]⟩)
    ∧ (servedResponse (serveHTTP envPathParam)).status = 500 := by
  constructor <;> decide

/-- **C8 (amended).** When routing supplies the sign URL as a path parameter,
all form parameters (`sign` and `fetch` alike) are ignored: the outcome does
not depend on them at all, so in particular two `fetch` values do not cause
BAD_REQUEST. -/
theorem serveHTTP_pathParam_ignores_form (env : Env) (f1 s1 f2 s2 : List String)
    (h : env.muxSignURL ≠ "") :
    serveHTTP { env with formFetch := f1, formSign := s1 } =
      serveHTTP { env with formFetch := f2, formSign := s2 } := by
  have he : ∀ f s, extractParams { env with formFetch := f, formSign := s } =
      .ok ("", env.muxSignURL) := by
    intro f s
    simp [extractParams, h]
  have hn : ∀ f s, negotiate { env with formFetch := f, formSign := s } =
      negotiate env := fun _ _ => rfl
  have hc : ∀ f s r fr p,
      consumeAndSign { env with formFetch := f, formSign := s } r fr p =
        consumeAndSign env r fr p := fun _ _ _ _ _ => rfl
  simp only [serveHTTP, he, hn, hc]

/-- Witness for `serveHTTP_pathParam_ignores_form`. -/
theorem serveHTTP_pathParam_ignores_form_witness :
    serveHTTP { envPathParam with formFetch := ["a", "b"], formSign := [] } =
      serveHTTP { envPathParam with formFetch := [], formSign := ["c"] } :=
  serveHTTP_pathParam_ignores_form envPathParam ["a", "b"] [] [] ["c"] (by decide)

/-! ### The signed path (C1, C2, C4) -/

/-- Inversion of the signed outcome of `serveSignedExchange`: every oracle
succeeded, the exchange carries the mutated headers plus `Digest`, and the
validity window is `date = now - 24h`, `expires = date + min(7d, maxAge)`
with `expires > now`. -/
lemma serveSignedExchange_signed_inv {env : Env} {respHeader : Header}
    {fetchResp : FetchResp} {params : SXGParams} {ex : Exchange} {d e : Int}
    {r : Response}
    (h : serveSignedExchange env respHeader fetchResp params = .signed ex d e r) :
    ∃ transformed metadata linkHeader encodedPayload digest bodyBytes,
      env.transform fetchResp.body params.signURL params.transformVersion =
        .ok (transformed, metadata)
      ∧ formatLinkHeader env.parsePreloadURL env.quotedString metadata.preloads =
          .ok linkHeader
      ∧ env.miEncode transformed = .ok (encodedPayload, digest)
      ∧ ex = { version := sxgVersion, uri := params.signURL, method := "GET",
               requestHeaders := [], responseStatus := fetchResp.statusCode,
               responseHeaders :=
                 hSet (mutateHeaders fetchResp.header linkHeader transformed.length)
                   "Digest" digest,
               payload := encodedPayload }
      ∧ d = env.nowSec - 24 * 3600
      ∧ e = d + min (7 * 24 * 3600) metadata.maxAgeSecs
      ∧ env.nowSec < e
      ∧ env.serializeResult = .ok bodyBytes
      ∧ r = ⟨signedOuterHeader respHeader params.ampCacheTransformHeader,
             200, bodyBytes⟩ := by
  rw [serveSignedExchange] at h
  rcases htr : env.transform fetchResp.body params.signURL params.transformVersion
      with _ | ⟨transformed, metadata⟩ <;> rw [htr] at h <;> dsimp only at h
  · simp at h
  rcases hlk : formatLinkHeader env.parsePreloadURL env.quotedString metadata.preloads
      with _ | linkHeader <;> rw [hlk] at h <;> dsimp only at h
  · simp at h
  rcases hmi : env.miEncode transformed with _ | ⟨encodedPayload, digest⟩ <;>
      rw [hmi] at h <;> dsimp only at h
  · simp at h
  rcases hg : env.genCertURLResult with _ | certURL <;> rw [hg] at h <;> dsimp only at h
  · simp at h
  cases hv : env.validityParseOk <;> rw [hv] at h <;> simp only [Bool.not_false,
      Bool.not_true, if_true, if_false, Bool.false_eq_true, Bool.true_eq_false] at h
  · simp at h
  by_cases hlt : env.nowSec <
      env.nowSec - 24 * 3600 + min (7 * 24 * 3600) metadata.maxAgeSecs <;>
    simp only [hlt, decide_True, decide_False, Bool.not_true, Bool.not_false,
      if_true, if_false, Bool.false_eq_true, Bool.true_eq_false, reduceIte] at h
  case neg => simp at h
  cases hs : env.addSignatureOk <;> rw [hs] at h <;> simp only [Bool.not_false,
      Bool.not_true, if_true, if_false, Bool.false_eq_true, Bool.true_eq_false] at h
  · simp at h
  rcases hw : env.serializeResult with _ | bodyBytes <;> rw [hw] at h <;> dsimp only at h
  · simp at h
  simp only [Served.signed.injEq] at h
  obtain ⟨hex, hd, he, hr⟩ := h
  exact ⟨transformed, metadata, linkHeader, encodedPayload, digest, bodyBytes,
    rfl, hlk, hmi, hex.symm, hd.symm, by rw [← he, ← hd], he ▸ hlt, rfl, hr.symm⟩



/-- A signed outcome of `consumeAndSign` comes from `serveSignedExchange` on
the consumed (capped) body. -/
lemma consumeAndSign_signed_inv {env : Env} {respHeader : Header}
    {fetchResp : FetchResp} {params : SXGParams} {ex : Exchange} {d e : Int}
    {r : Response}
    (h : consumeAndSign env respHeader fetchResp params = .signed ex d e r) :
    serveSignedExchange env respHeader
      ⟨fetchResp.statusCode, fetchResp.header,
        fetchResp.body.take maxSignableBodyLength⟩ params = .signed ex d e r := by
  rw [consumeAndSign] at h
  try dsimp only at h
  by_cases hrb : env.readBodyError = true
  · rw [if_pos hrb] at h
    simp at h
  rw [if_neg hrb] at h
  by_cases hc : (fetchResp.body.take maxSignableBodyLength).length =
      maxSignableBodyLength
  · rw [if_pos hc] at h
    simp at h
  rw [if_neg hc] at h
  exact h

/-- A signed outcome of `ServeHTTP` comes from `consumeAndSign` on a fetched
`200` response, with the initial outer header map. -/
lemma serveHTTP_signed_inv {env : Env} {ex : Exchange} {d e : Int} {r : Response}
    (h : serveHTTP env = .signed ex d e r) :
    ∃ fetchResp signURL act transformVersion,
      env.fetchResult = .ok fetchResp ∧ fetchResp.statusCode = 200 ∧
      consumeAndSign env initialRespHeader fetchResp
        ⟨signURL, act, transformVersion⟩ = .signed ex d e r := by
  rw [serveHTTP] at h
  try dsimp only at h
  by_cases hpf : env.parseFormError = true
  · rw [if_pos hpf] at h
    simp at h
  rw [if_neg hpf] at h
  rcases hep : extractParams env with code | ⟨f, s⟩ <;> rw [hep] at h <;> dsimp only at h
  · simp at h
  rcases hpu : env.parseURLs f s with code | ⟨fu, su, eosh⟩ <;> rw [hpu] at h <;>
    dsimp only at h
  · simp at h
  rcases hfr : env.fetchResult with code | fetchResp <;> rw [hfr] at h <;> dsimp only at h
  · simp at h
  by_cases hsp : (!env.shouldPackageOk) = true
  · rw [if_pos hsp] at h
    simp at h
  rw [if_neg hsp] at h
  rcases hng : negotiate env with u | ⟨act, tv⟩ <;> rw [hng] at h <;> dsimp only at h
  · simp at h
  by_cases hacc : (env.requireHeaders &&
      !env.canSatisfy (getJoined env.reqHeader "Accept")) = true
  · rw [if_pos hacc] at h
    simp at h
  rw [if_neg hacc] at h
  by_cases h200 : fetchResp.statusCode = 200
  · rw [if_pos h200] at h
    by_cases hvf : (!env.validateFetchOk) = true
    · rw [if_pos hvf] at h
      simp at h
    rw [if_neg hvf] at h
    by_cases hsf : (eosh && statefulResponseHeaders.any
        fun name => decide (getJoined fetchResp.header name ≠ "")) = true
    · rw [if_pos hsf] at h
      simp at h
    rw [if_neg hsf] at h
    by_cases hvar : hGetFirst fetchResp.header "Variants" ≠ "" ∨
        hGetFirst fetchResp.header "Variant-Key" ≠ "" ∨
        hGetFirst fetchResp.header "Variants-04" ≠ "" ∨
        hGetFirst fetchResp.header "Variant-Key-04" ≠ ""
    · rw [if_pos hvar] at h
      simp at h
    rw [if_neg hvar] at h
    exact ⟨fetchResp, su, act, tv, rfl, h200, h⟩
  · rw [if_neg h200] at h
    by_cases h304 : fetchResp.statusCode = 304
    · rw [if_pos h304] at h
      simp at h
    · rw [if_neg h304] at h
      simp at h

lemma stateful_not_mutation_keys : ∀ n ∈ statefulResponseHeaders,
    n ≠ "Digest" ∧ n ≠ "Link" ∧ n ≠ "Content-Length" ∧
    n ≠ "X-Content-Type-Options" ∧ n ≠ "Content-Security-Policy" := by decide

lemma hGet_mutateHeaders_stateful (h : Header) (lk : String) (cl : Nat)
    {n : String} (hn : n ∈ statefulResponseHeaders) :
    hGet (mutateHeaders h lk cl) n = none := by
  obtain ⟨-, h2, h3, h4, h5⟩ := stateful_not_mutation_keys n hn
  simp only [mutateHeaders]
  rw [hGet_hSet, if_neg h5, hGet_hSet, if_neg h4, hGet_hSet, if_neg h3]
  by_cases hl : lk ≠ ""
  · rw [if_pos hl, hGet_hSet, if_neg h2, hGet_foldl_hDel, if_pos hn]
  · rw [if_neg hl, hGet_hDel, if_neg h2, hGet_foldl_hDel, if_pos hn]

/-- **C1.** On the signed path, the inner response header map of the emitted
exchange contains none of the thirteen stateful response headers, whatever
the upstream response carried. -/
theorem signed_no_stateful_headers (env : Env) (ex : Exchange) (d e : Int)
    (r : Response) (h : serveHTTP env = .signed ex d e r) :
    ∀ name ∈ statefulResponseHeaders, hGet ex.responseHeaders name = none := by
  obtain ⟨fr, su, act, tv, -, -, hcs⟩ := serveHTTP_signed_inv h
  obtain ⟨t, md, lk, enc, dg, bb, -, -, -, hex, -⟩ :=
    serveSignedExchange_signed_inv (consumeAndSign_signed_inv hcs)
  intro name hname
  obtain ⟨h1, -⟩ := stateful_not_mutation_keys name hname
  rw [hex]
  show hGet (hSet (mutateHeaders _ lk _) "Digest" dg) name = none
  rw [hGet_hSet, if_neg h1, hGet_mutateHeaders_stateful _ _ _ hname]

set_option maxRecDepth 200000 in
/-- Witness for `signed_no_stateful_headers` at the concrete happy path. -/
theorem signed_no_stateful_headers_witness :
    hGet exHappy.responseHeaders "Set-Cookie" = none :=
  signed_no_stateful_headers envHappy exHappy 913600 1003600 respHappy
    (by decide) "Set-Cookie" (by decide)

/-- Every failure path of `serveSignedExchange` after a successful transform
with `min(7d, maxAge) ≤ 24h` ends in an unsigned proxy of the consumed
response: the computed expiry `now - 24h + min(7d, maxAge)` is not after
`now`. -/
lemma serveSignedExchange_proxied_of_expired (env : Env) (respHeader : Header)
    (fetchResp : FetchResp) (params : SXGParams) (transformed : List Nat)
    (metadata : Metadata)
    (htr : env.transform fetchResp.body params.signURL params.transformVersion =
      .ok (transformed, metadata))
    (hle : min (7 * 24 * 3600) metadata.maxAgeSecs ≤ (24 * 3600 : Int)) :
    ∃ r, serveSignedExchange env respHeader fetchResp params = .proxied r := by
  rw [serveSignedExchange, htr]
  dsimp only
  rcases hlk : formatLinkHeader env.parsePreloadURL env.quotedString metadata.preloads
    with u | lk
  · exact ⟨_, rfl⟩
  rcases hmi : env.miEncode transformed with u | ⟨enc, dg⟩
  · exact ⟨_, rfl⟩
  rcases hg : env.genCertURLResult with u | certURL
  · exact ⟨_, rfl⟩
  cases hv : env.validityParseOk
  · exact ⟨_, rfl⟩
  have hexp : ¬(env.nowSec < env.nowSec - 24 * 3600 +
      min (7 * 24 * 3600) metadata.maxAgeSecs) := by
    omega
  dsimp only
  have hdec : decide (env.nowSec < env.nowSec - 24 * 3600 +
      min (7 * 24 * 3600) metadata.maxAgeSecs) = false := decide_eq_false hexp
  rw [if_pos (show (!decide (env.nowSec < env.nowSec - 24 * 3600 +
      min (7 * 24 * 3600) metadata.maxAgeSecs)) = true by rw [hdec]; rfl)]
  exact ⟨_, rfl⟩

/-- **C2.** Every emitted signed exchange has `date = now - 24h`,
`expires = date + min(7d, metadata.max_age_secs)`, hence
`expires - date ≤ 7·24·3600`, and `expires > now`; and whenever the
computed expiry is not after `now` (`min(7d, maxAge) ≤ 24h`), no exchange is
emitted: the response is proxied unsigned. -/
theorem signature_validity_window :
    (∀ env ex d e r, serveHTTP env = .signed ex d e r →
      d = env.nowSec - 24 * 3600 ∧ e - d ≤ 7 * 24 * 3600 ∧ env.nowSec < e ∧
      ∃ body signURL version transformed metadata,
        env.transform body signURL version = .ok (transformed, metadata) ∧
        e = d + min (7 * 24 * 3600) metadata.maxAgeSecs)
    ∧ (∀ env respHeader fetchResp params transformed metadata,
        env.transform fetchResp.body params.signURL params.transformVersion =
          .ok (transformed, metadata) →
        min (7 * 24 * 3600) metadata.maxAgeSecs ≤ (24 * 3600 : Int) →
        ∃ r, serveSignedExchange env respHeader fetchResp params = .proxied r) := by
  constructor
  · intro env ex d e r h
    obtain ⟨fr, su, act, tv, -, -, hcs⟩ := serveHTTP_signed_inv h
    obtain ⟨t, md, lk, enc, dg, bb, htr, -, -, -, hd, he, hlt, -⟩ :=
      serveSignedExchange_signed_inv (consumeAndSign_signed_inv hcs)
    have hmin : min (7 * 24 * 3600 : Int) md.maxAgeSecs ≤ 7 * 24 * 3600 :=
      min_le_left _ _
    exact ⟨hd, by omega, hlt, _, _, _, t, md, htr, he⟩
  · intro env respHeader fetchResp params transformed metadata htr hle
    exact serveSignedExchange_proxied_of_expired env respHeader fetchResp params
      transformed metadata htr hle

set_option maxRecDepth 200000 in
/-- Witness for `signature_validity_window`: the happy path's window, and the
proxied outcome when the transform reports `max_age_secs = 3600`. -/
theorem signature_validity_window_witness :
    ((913600 : Int) = envHappy.nowSec - 24 * 3600 ∧
      (1003600 : Int) - 913600 ≤ 7 * 24 * 3600 ∧ envHappy.nowSec < 1003600 ∧
      ∃ body signURL version transformed metadata,
        envHappy.transform body signURL version = .ok (transformed, metadata) ∧
        (1003600 : Int) = 913600 + min (7 * 24 * 3600) metadata.maxAgeSecs)
    ∧ ∃ r, serveSignedExchange env3600 initialRespHeader ⟨200, [], [72]⟩
        ⟨"https://example.com/doc", "", 1⟩ = .proxied r :=
  ⟨signature_validity_window.1 envHappy exHappy 913600 1003600 respHappy (by decide),
   signature_validity_window.2 env3600 initialRespHeader ⟨200, [], [72]⟩
     ⟨"https://example.com/doc", "", 1⟩ [72] ⟨3600, []⟩ rfl (by decide)⟩

set_option maxRecDepth 200000 in
/-- **C4 (counterexample).** With every admission gate passing and the
transform metadata reporting `max_age_secs = 3600`, no signed exchange is
emitted: the computed expiry `now - 24h + 3600s` lies in the past, so the
handler proxies the (already mutated) upstream response, whose content type
is still `text/html`. -/
theorem maxage_3600_not_signed :
    isSigned (serveHTTP env3600) = false
    ∧ hGet (servedResponse (serveHTTP env3600)).header "Content-Type" =
        some ["text/html"]
    ∧ (servedResponse (serveHTTP env3600)).status = 200 := by
  refine ⟨by decide, by decide, by decide⟩

set_option maxRecDepth 200000 in
/-- **C4 (amended).** An upstream 200 response that passes every admission
gate with transform metadata `max_age_secs = 90000` (> 24h) yields a 200
response with `Content-Type: application/signed-exchange;v=b3` whose
signature satisfies `expires - date = 90000` seconds. -/
theorem happy_sign_emits_sxg :
    serveHTTP envHappy = .signed exHappy 913600 1003600 respHappy
    ∧ (1003600 : Int) - 913600 = 90000
    ∧ respHappy.status = 200
    ∧ hGet respHappy.header "Content-Type" =
        some ["application/signed-exchange;v=b3"] := by
  refine ⟨by decide, by decide, by decide, by decide⟩

/-! ### The 304 pass-through (C6) -/

/-- **C6 (counterexample).** On a 304 upstream response carrying only `ETag`,
the downstream 304 also carries the always-added `Vary` header, which is not
present upstream: the headers are not exactly the six-restricted set. -/
theorem notModified_carries_vary :
    serveHTTP env304 =
      .notModified ⟨[("Vary", ["Accept, AMP-Cache-Transform"]),
                     ("ETag", ["\"abc\""])], 304, []⟩
    ∧ hGet (servedResponse (serveHTTP env304)).header "Vary" =
        some ["Accept, AMP-Cache-Transform"]
    ∧ hGet [("ETag", ["\"abc\""])] "Vary" = none := by
  refine ⟨by decide, by decide, by decide⟩

lemma hGet_initialRespHeader (k : String) :
    hGet initialRespHeader k =
      if k = "Vary" then some ["Accept, AMP-Cache-Transform"] else none := by
  rw [show initialRespHeader = [("Vary", ["Accept, AMP-Cache-Transform"])] from rfl,
    hGet_cons]
  by_cases hk : k = "Vary"
  · simp [hk]
  · rw [if_neg (fun hh : "Vary" = k => hk hh.symm), if_neg hk, hGet_nil]

/-- **C6 (amended).** A 304 upstream response produces a 304 downstream
response with no body whose headers are the six `statusNotModifiedHeaders`
restricted to those present upstream, plus the always-added
`Vary: Accept, AMP-Cache-Transform` (whose value the upstream `Vary`
replaces when present); no other header appears. -/
theorem serveHTTP_304 (env : Env) (fetchResp : FetchResp) (f s fu su : String)
    (eosh : Bool) (act : String) (tv : Int)
    (hpf : env.parseFormError = false)
    (hep : extractParams env = .ok (f, s))
    (hpu : env.parseURLs f s = .ok (fu, su, eosh))
    (hfr : env.fetchResult = .ok fetchResp)
    (hsp : env.shouldPackageOk = true)
    (hng : negotiate env = .ok (act, tv))
    (hacc : (env.requireHeaders &&
      !env.canSatisfy (getJoined env.reqHeader "Accept")) = false)
    (h304 : fetchResp.statusCode = 304) :
    serveHTTP env = .notModified (notModifiedResponse initialRespHeader fetchResp)
    ∧ (notModifiedResponse initialRespHeader fetchResp).status = 304
    ∧ (notModifiedResponse initialRespHeader fetchResp).body = []
    ∧ (∀ k, k ∉ statusNotModifiedHeaders → k ≠ "Vary" →
        hGet (notModifiedResponse initialRespHeader fetchResp).header k = none)
    ∧ (∀ k ∈ statusNotModifiedHeaders, k ≠ "Vary" →
        hGet (notModifiedResponse initialRespHeader fetchResp).header k =
          (if getJoined fetchResp.header k ≠ "" then
            some [getJoined fetchResp.header k] else none))
    ∧ hGet (notModifiedResponse initialRespHeader fetchResp).header "Vary" =
        (if getJoined fetchResp.header "Vary" ≠ "" then
          some [getJoined fetchResp.header "Vary"]
        else some ["Accept, AMP-Cache-Transform"]) := by
  refine ⟨?_, rfl, rfl, ?_, ?_, ?_⟩
  · rw [serveHTTP]
    try dsimp only
    rw [if_neg (by rw [hpf]; simp), hep]
    dsimp only
    rw [hpu]
    dsimp only
    rw [hfr]
    dsimp only
    rw [if_neg (by rw [hsp]; simp), hng]
    dsimp only
    rw [if_neg (by rw [hacc]; simp), if_neg (by rw [h304]; simp), if_pos h304]
  · intro k hk hkv
    simp only [notModifiedResponse]
    rw [hGet_foldl_setIf_not_mem fetchResp.header statusNotModifiedHeaders
      initialRespHeader k hk, hGet_initialRespHeader, if_neg hkv]
  · intro k hk hkv
    simp only [notModifiedResponse]
    rw [hGet_foldl_setIf_mem fetchResp.header statusNotModifiedHeaders
      initialRespHeader k (by decide) hk]
    by_cases hv : getJoined fetchResp.header k ≠ ""
    · rw [if_pos hv, if_pos hv]
    · rw [if_neg hv, if_neg hv, hGet_initialRespHeader, if_neg hkv]
  · simp only [notModifiedResponse]
    rw [hGet_foldl_setIf_mem fetchResp.header statusNotModifiedHeaders
      initialRespHeader "Vary" (by decide) (by decide)]
    by_cases hv : getJoined fetchResp.header "Vary" ≠ ""
    · rw [if_pos hv, if_pos hv]
    · rw [if_neg hv, if_neg hv, hGet_initialRespHeader, if_pos rfl]

/-- Witness for `serveHTTP_304` at a concrete 304 upstream response. -/
theorem serveHTTP_304_witness :
    serveHTTP env304 =
      .notModified (notModifiedResponse initialRespHeader
        ⟨304, [("ETag", ["\"abc\""])], []⟩) :=
  (serveHTTP_304 env304 ⟨304, [("ETag", ["\"abc\""])], []⟩
    "" "https://example.com/doc" "https://example.com/doc"
    "https://example.com/doc" false "" 1
    rfl rfl rfl rfl rfl rfl rfl rfl).1

/-! ### The outer Vary header (C7) -/

/-- **C7 (counterexample).** On the proxy-fallback path, an upstream `Vary`
header is copied over the handler's own `Vary`, so the outer response's
`Vary` no longer includes `Accept, AMP-Cache-Transform`. -/
theorem proxy_overwrites_vary :
    hGet (servedResponse (serveHTTP envVary)).header "Vary" = some ["User-Agent"]
    ∧ "Accept, AMP-Cache-Transform" ∉ ["User-Agent"] := by
  refine ⟨by decide, by decide⟩

lemma hGet_initial_vary :
    hGet initialRespHeader "Vary" = some ["Accept, AMP-Cache-Transform"] := by
  rw [hGet_initialRespHeader, if_pos rfl]

lemma hGet_mem {h : Header} {k : String} {vs : List String}
    (hg : hGet h k = some vs) : (k, vs) ∈ h := by
  induction h with
  | nil => simp [hGet_nil] at hg
  | cons p t ih =>
    rw [hGet_cons] at hg
    by_cases hp : p.1 = k
    · rw [if_pos hp] at hg
      obtain ⟨p1, p2⟩ := p
      simp only at hp
      simp only [Option.some.injEq] at hg
      subst hp
      subst hg
      exact List.mem_cons_self _ _
    · rw [if_neg hp] at hg
      exact List.mem_cons_of_mem p (ih hg)

lemma vary_proxyImpl (entries : Header) (st : Nat) (pre suf : List Nat)
    (hwf : headerWF entries) :
    ∃ vs, hGet (proxyImpl initialRespHeader entries st pre suf).header "Vary" =
        some vs ∧ vs ≠ [] ∧
      (hGet entries "Vary" = none → vs = ["Accept, AMP-Cache-Transform"]) := by
  by_cases hv : hGet entries "Vary" = none
  · refine ⟨["Accept, AMP-Cache-Transform"], ?_, by simp, fun _ => rfl⟩
    have hnm : ∀ p ∈ entries, p.1 ≠ "Vary" := (hGet_none_iff entries "Vary").mp hv
    show hGet (entries.foldl (fun acc p => hSetAll acc p.1 p.2) initialRespHeader)
      "Vary" = _
    rw [hGet_proxyFold_not_mem entries initialRespHeader "Vary" hnm, hGet_initial_vary]
  · obtain ⟨vs0, hvs0⟩ := Option.ne_none_iff_exists'.mp hv
    obtain ⟨vs, h1, h2⟩ := hGet_proxyFold_some entries initialRespHeader "Vary"
      hwf hGet_initial_vary (by simp)
    exact ⟨vs, h1, h2, fun hnone => absurd hnone hv⟩

lemma hGet_signedOuter_vary (act : String) :
    hGet (signedOuterHeader initialRespHeader act) "Vary" =
      some ["Accept, AMP-Cache-Transform"] := by
  simp only [signedOuterHeader]
  rw [hGet_hSet, if_neg (by decide), hGet_hSet, if_neg (by decide),
    hGet_hSet, if_neg (by decide)]
  by_cases ha : act ≠ ""
  · rw [if_pos ha, hGet_hSet, if_neg (by decide), hGet_initial_vary]
  · rw [if_neg ha, hGet_initial_vary]

lemma hGet_mutateHeaders_vary (h : Header) (lk : String) (cl : Nat) :
    hGet (mutateHeaders h lk cl) "Vary" = hGet h "Vary" :=
  hGet_mutateHeaders h lk cl "Vary" (by decide) (by decide) (by decide)
    (by decide) (by decide)

lemma hGet_mutatedDigest_vary (h : Header) (lk : String) (cl : Nat) (dg : String) :
    hGet (hSet (mutateHeaders h lk cl) "Digest" dg) "Vary" = hGet h "Vary" := by
  rw [hGet_hSet, if_neg (by decide), hGet_mutateHeaders_vary]

/-- **C7 (amended).** Every outer response carries a nonempty `Vary` header;
its value is `Accept, AMP-Cache-Transform` whenever no upstream `Vary` header
was copied over it (on proxy fallback or 304 pass-through of an upstream
response carrying `Vary`, the upstream value replaces it). -/
theorem vary_always_present (env : Env)
    (hwf : ∀ fetchResp, env.fetchResult = .ok fetchResp → headerWF fetchResp.header) :
    ∃ vs, hGet (servedResponse (serveHTTP env)).header "Vary" = some vs ∧ vs ≠ [] ∧
      ((∀ fetchResp, env.fetchResult = .ok fetchResp →
          hGet fetchResp.header "Vary" = none) →
        vs = ["Accept, AMP-Cache-Transform"]) := by
  rw [serveHTTP]
  try dsimp only
  by_cases hpf : env.parseFormError = true
  · rw [if_pos hpf]
    exact ⟨_, hGet_initial_vary, by simp, fun _ => rfl⟩
  rw [if_neg hpf]
  rcases hep : extractParams env with code | ⟨f, s⟩ <;> try dsimp only
  · exact ⟨_, hGet_initial_vary, by simp, fun _ => rfl⟩
  rcases hpu : env.parseURLs f s with code | ⟨fu, su, eosh⟩ <;> try dsimp only
  · exact ⟨_, hGet_initial_vary, by simp, fun _ => rfl⟩
  rcases hfr : env.fetchResult with code | fetchResp <;> try dsimp only
  · exact ⟨_, hGet_initial_vary, by simp, fun _ => rfl⟩
  have hw : headerWF fetchResp.header := hwf fetchResp hfr
  by_cases hsp : (!env.shouldPackageOk) = true
  · rw [if_pos hsp]
    obtain ⟨vs, h1, h2, himp⟩ := vary_proxyImpl fetchResp.header
      fetchResp.statusCode [] fetchResp.body hw
    exact ⟨vs, h1, h2, fun hall => himp (hall fetchResp rfl)⟩
  rw [if_neg hsp]
  rcases hng : negotiate env with u | ⟨act, tv⟩ <;> try dsimp only
  · obtain ⟨vs, h1, h2, himp⟩ := vary_proxyImpl fetchResp.header
      fetchResp.statusCode [] fetchResp.body hw
    exact ⟨vs, h1, h2, fun hall => himp (hall fetchResp rfl)⟩
  by_cases hacc : (env.requireHeaders &&
      !env.canSatisfy (getJoined env.reqHeader "Accept")) = true
  · rw [if_pos hacc]
    obtain ⟨vs, h1, h2, himp⟩ := vary_proxyImpl fetchResp.header
      fetchResp.statusCode [] fetchResp.body hw
    exact ⟨vs, h1, h2, fun hall => himp (hall fetchResp rfl)⟩
  rw [if_neg hacc]
  by_cases h200 : fetchResp.statusCode = 200
  · rw [if_pos h200]
    by_cases hvf : (!env.validateFetchOk) = true
    · rw [if_pos hvf]
      obtain ⟨vs, h1, h2, himp⟩ := vary_proxyImpl fetchResp.header
        fetchResp.statusCode [] fetchResp.body hw
      exact ⟨vs, h1, h2, fun hall => himp (hall fetchResp rfl)⟩
    rw [if_neg hvf]
    by_cases hsf : (eosh && statefulResponseHeaders.any
        fun name => decide (getJoined fetchResp.header name ≠ "")) = true
    · rw [if_pos hsf]
      obtain ⟨vs, h1, h2, himp⟩ := vary_proxyImpl fetchResp.header
        fetchResp.statusCode [] fetchResp.body hw
      exact ⟨vs, h1, h2, fun hall => himp (hall fetchResp rfl)⟩
    rw [if_neg hsf]
    by_cases hvar : hGetFirst fetchResp.header "Variants" ≠ "" ∨
        hGetFirst fetchResp.header "Variant-Key" ≠ "" ∨
        hGetFirst fetchResp.header "Variants-04" ≠ "" ∨
        hGetFirst fetchResp.header "Variant-Key-04" ≠ ""
    · rw [if_pos hvar]
      obtain ⟨vs, h1, h2, himp⟩ := vary_proxyImpl fetchResp.header
        fetchResp.statusCode [] fetchResp.body hw
      exact ⟨vs, h1, h2, fun hall => himp (hall fetchResp rfl)⟩
    rw [if_neg hvar]
    rw [consumeAndSign]
    try dsimp only
    by_cases hrb : env.readBodyError = true
    · rw [if_pos hrb]
      exact ⟨_, hGet_initial_vary, by simp, fun _ => rfl⟩
    rw [if_neg hrb]
    by_cases hcap : (fetchResp.body.take maxSignableBodyLength).length =
        maxSignableBodyLength
    · rw [if_pos hcap]
      obtain ⟨vs, h1, h2, himp⟩ := vary_proxyImpl fetchResp.header
        fetchResp.statusCode (fetchResp.body.take maxSignableBodyLength)
        (fetchResp.body.drop maxSignableBodyLength) hw
      exact ⟨vs, h1, h2, fun hall => himp (hall fetchResp rfl)⟩
    rw [if_neg hcap]
    rw [serveSignedExchange]
    try dsimp only
    rcases htr : env.transform (fetchResp.body.take maxSignableBodyLength) su tv
      with u | ⟨transformed, metadata⟩ <;> try dsimp only
    · obtain ⟨vs, h1, h2, himp⟩ := vary_proxyImpl fetchResp.header
        fetchResp.statusCode (fetchResp.body.take maxSignableBodyLength) [] hw
      exact ⟨vs, h1, h2, fun hall => himp (hall fetchResp rfl)⟩
    rcases hlk : formatLinkHeader env.parsePreloadURL env.quotedString
      metadata.preloads with u | linkHeader <;> try dsimp only
    · obtain ⟨vs, h1, h2, himp⟩ := vary_proxyImpl fetchResp.header
        fetchResp.statusCode (fetchResp.body.take maxSignableBodyLength) [] hw
      exact ⟨vs, h1, h2, fun hall => himp (hall fetchResp rfl)⟩
    rcases hmi : env.miEncode transformed with u | ⟨enc, dg⟩ <;> try dsimp only
    · obtain ⟨vs, h1, h2, himp⟩ := vary_proxyImpl
        (mutateHeaders fetchResp.header linkHeader transformed.length)
        fetchResp.statusCode (fetchResp.body.take maxSignableBodyLength) []
        (headerWF_mutateHeaders hw linkHeader transformed.length)
      refine ⟨vs, h1, h2, fun hall => himp ?_⟩
      rw [hGet_mutateHeaders_vary]
      exact hall fetchResp rfl
    rcases hg : env.genCertURLResult with u | certURL <;> try dsimp only
    · obtain ⟨vs, h1, h2, himp⟩ := vary_proxyImpl
        (hSet (mutateHeaders fetchResp.header linkHeader transformed.length)
          "Digest" dg)
        fetchResp.statusCode (fetchResp.body.take maxSignableBodyLength) []
        (headerWF_hSet (headerWF_mutateHeaders hw linkHeader transformed.length)
          "Digest" dg)
      refine ⟨vs, h1, h2, fun hall => himp ?_⟩
      rw [hGet_mutatedDigest_vary]
      exact hall fetchResp rfl
    by_cases hv : (!env.validityParseOk) = true
    · rw [if_pos hv]
      obtain ⟨vs, h1, h2, himp⟩ := vary_proxyImpl
        (hSet (mutateHeaders fetchResp.header linkHeader transformed.length)
          "Digest" dg)
        fetchResp.statusCode (fetchResp.body.take maxSignableBodyLength) []
        (headerWF_hSet (headerWF_mutateHeaders hw linkHeader transformed.length)
          "Digest" dg)
      refine ⟨vs, h1, h2, fun hall => himp ?_⟩
      rw [hGet_mutatedDigest_vary]
      exact hall fetchResp rfl
    rw [if_neg hv]
    by_cases hexp : (!decide (env.nowSec < env.nowSec - 24 * 3600 +
        min (7 * 24 * 3600) metadata.maxAgeSecs)) = true
    · rw [if_pos hexp]
      obtain ⟨vs, h1, h2, himp⟩ := vary_proxyImpl
        (hSet (mutateHeaders fetchResp.header linkHeader transformed.length)
          "Digest" dg)
        fetchResp.statusCode (fetchResp.body.take maxSignableBodyLength) []
        (headerWF_hSet (headerWF_mutateHeaders hw linkHeader transformed.length)
          "Digest" dg)
      refine ⟨vs, h1, h2, fun hall => himp ?_⟩
      rw [hGet_mutatedDigest_vary]
      exact hall fetchResp rfl
    rw [if_neg hexp]
    by_cases hsg : (!env.addSignatureOk) = true
    · rw [if_pos hsg]
      obtain ⟨vs, h1, h2, himp⟩ := vary_proxyImpl
        (hSet (mutateHeaders fetchResp.header linkHeader transformed.length)
          "Digest" dg)
        fetchResp.statusCode (fetchResp.body.take maxSignableBodyLength) []
        (headerWF_hSet (headerWF_mutateHeaders hw linkHeader transformed.length)
          "Digest" dg)
      refine ⟨vs, h1, h2, fun hall => himp ?_⟩
      rw [hGet_mutatedDigest_vary]
      exact hall fetchResp rfl
    rw [if_neg hsg]
    rcases hser : env.serializeResult with u | bodyBytes <;> try dsimp only
    · obtain ⟨vs, h1, h2, himp⟩ := vary_proxyImpl
        (hSet (mutateHeaders fetchResp.header linkHeader transformed.length)
          "Digest" dg)
        fetchResp.statusCode (fetchResp.body.take maxSignableBodyLength) []
        (headerWF_hSet (headerWF_mutateHeaders hw linkHeader transformed.length)
          "Digest" dg)
      refine ⟨vs, h1, h2, fun hall => himp ?_⟩
      rw [hGet_mutatedDigest_vary]
      exact hall fetchResp rfl
    exact ⟨_, hGet_signedOuter_vary act, by simp, fun _ => rfl⟩
  · rw [if_neg h200]
    by_cases h304 : fetchResp.statusCode = 304
    · rw [if_pos h304]
      show ∃ vs, hGet (notModifiedResponse initialRespHeader fetchResp).header
        "Vary" = some vs ∧ _
      simp only [notModifiedResponse]
      rw [hGet_foldl_setIf_mem fetchResp.header statusNotModifiedHeaders
        initialRespHeader "Vary" (by decide) (by decide)]
      by_cases hvj : getJoined fetchResp.header "Vary" ≠ ""
      · rw [if_pos hvj]
        refine ⟨[getJoined fetchResp.header "Vary"], rfl, by simp, fun hall => ?_⟩
        exact absurd (getJoined_of_none (hall fetchResp rfl)) hvj
      · rw [if_neg hvj, hGet_initial_vary]
        exact ⟨["Accept, AMP-Cache-Transform"], rfl, by simp, fun _ => rfl⟩
    · rw [if_neg h304]
      obtain ⟨vs, h1, h2, himp⟩ := vary_proxyImpl fetchResp.header
        fetchResp.statusCode [] fetchResp.body hw
      exact ⟨vs, h1, h2, fun hall => himp (hall fetchResp rfl)⟩

/-- Witness for `vary_always_present` at the concrete happy path. -/
theorem vary_always_present_witness :
    ∃ vs, hGet (servedResponse (serveHTTP envHappy)).header "Vary" = some vs ∧
      vs ≠ [] ∧
      ((∀ fetchResp, envHappy.fetchResult = .ok fetchResp →
          hGet fetchResp.header "Vary" = none) →
        vs = ["Accept, AMP-Cache-Transform"]) :=
  vary_always_present envHappy (fun fr hfr => by
    have h0 : Except.ok (⟨200, [("Content-Type", ["text/html"])], [72, 105]⟩ :
        FetchResp) = Except.ok fr := hfr
    cases h0
    intro p hp
    cases hp with
    | head => simp
    | tail _ h => cases h)

end AmpPkg
